import Mathlib

/-!
# Verification of the Video_Sorter labeling tool (`src/main.py`)

Shallow embedding of the queue/log/undo state machine of `VideoLabeler`
together with the pure helper functions (`ensure_unique_path`,
`read_logged_paths`, `load_labels`-style destination resolution,
`build_queue`, `remove_last_log_entry`, `ensure_log_header`).

Modelling conventions:
* Paths are POSIX-style strings; `pathlib` operations used by the source
  (`.name`, `.stem`, `.suffix`, `.parent`, `/`-join, `is_absolute`) are
  embedded as character-list functions following CPython's `pathlib` rules.
* The filesystem is an association list from file paths to file contents;
  directories (and `mkdir`) are not modelled, only regular files.
* The CSV log file is `Option (List (List String))`: `none` means the file
  does not exist, `some rows` is the list of raw CSV rows (each a list of
  fields).  CSV quoting/unquoting is abstracted away (a written row reads
  back as the same list of fields, which is what `csv.writer`/`csv.reader`
  guarantee).
* `datetime.utcnow().isoformat()` is a parameter `ts` of the operations.
* Python float rates are embedded as rationals (all the rates in the
  program are exactly representable).
-/

/-! ## Decimal rendering: Python `f"{n:03d}"` -/

/-- Fuel-driven decimal rendering of a natural number, most significant digit
first.  Mirrors the digit loop of Python's integer formatting: repeatedly
divide by 10 and emit `n % 10`. -/
def natReprAux : Nat → Nat → List Char
  | 0, _ => []
  | fuel + 1, n =>
    if n < 10 then [Nat.digitChar n]
    else natReprAux fuel (n / 10) ++ [Nat.digitChar (n % 10)]

/-- Decimal digit string of `n` (as a character list). -/
def natReprChars (n : Nat) : List Char := natReprAux (n + 1) n

/-- Python `f"{n:03d}"`: decimal rendering of `n`, left-padded with `'0'` to a
minimum width of 3. -/
def pad3 (n : Nat) : String :=
  String.mk (List.replicate (3 - (natReprChars n).length) '0' ++ natReprChars n)

theorem natReprAux_succ_lt (fuel n : Nat) (h : n < 10) :
    natReprAux (fuel + 1) n = [Nat.digitChar n] := by
  simp [natReprAux, h]

theorem natReprAux_succ_ge (fuel n : Nat) (h : ¬ n < 10) :
    natReprAux (fuel + 1) n = natReprAux fuel (n / 10) ++ [Nat.digitChar (n % 10)] := by
  simp [natReprAux, h]

theorem natReprAux_fuel (n : Nat) :
    ∀ fuel, n < fuel → natReprAux fuel n = natReprChars n := by
  induction n using Nat.strong_induction_on with
  | _ n ih =>
    intro fuel hfuel
    match fuel, hfuel with
    | f + 1, hfuel =>
      by_cases h10 : n < 10
      · rw [natReprAux_succ_lt f n h10, natReprChars, natReprAux_succ_lt n n h10]
      · have hn0 : 0 < n := by omega
        have hdiv : n / 10 < n := Nat.div_lt_self hn0 (by omega)
        have h1 : natReprAux f (n / 10) = natReprChars (n / 10) := by
          apply ih _ hdiv
          omega
        have h2 : natReprAux n (n / 10) = natReprChars (n / 10) :=
          ih _ hdiv _ hdiv
        rw [natReprAux_succ_ge f n h10, h1]
        conv_rhs => rw [natReprChars, natReprAux_succ_ge n n h10, h2]

/-- Parse a list of decimal digit characters (accumulator style), the inverse
of `natReprChars`. -/
def parseDec (acc : Nat) (cs : List Char) : Nat :=
  cs.foldl (fun a c => 10 * a + (c.toNat - 48)) acc

theorem digitChar_toNat : ∀ d : Nat, d < 10 → (Nat.digitChar d).toNat = 48 + d := by
  decide

theorem parseDec_append (acc : Nat) (cs ds : List Char) :
    parseDec acc (cs ++ ds) = parseDec (parseDec acc cs) ds := by
  simp [parseDec, List.foldl_append]

theorem parseDec_natReprChars (n : Nat) :
    ∀ acc, parseDec acc (natReprChars n) = acc * 10 ^ (natReprChars n).length + n := by
  induction n using Nat.strong_induction_on with
  | _ n ih =>
    intro acc
    by_cases h10 : n < 10
    · simp [natReprChars, natReprAux, if_pos h10, parseDec, digitChar_toNat n h10]
      omega
    · have hn0 : 0 < n := by omega
      have hdiv : n / 10 < n := Nat.div_lt_self hn0 (by omega)
      have hrw : natReprChars n = natReprChars (n / 10) ++ [Nat.digitChar (n % 10)] := by
        rw [natReprChars, natReprAux_succ_ge n n h10, natReprAux_fuel (n / 10) n hdiv]
      rw [hrw, parseDec_append, ih _ hdiv acc]
      have hmod : n % 10 < 10 := Nat.mod_lt _ (by omega)
      simp [parseDec, digitChar_toNat _ hmod, List.length_append, pow_succ]
      have := Nat.div_add_mod n 10
      ring_nf
      omega

theorem parseDec_replicate_zero (k : Nat) (cs : List Char) :
    parseDec 0 (List.replicate k '0' ++ cs) = parseDec 0 cs := by
  induction k with
  | zero => simp
  | succ k ih =>
    simpa [List.replicate_succ, parseDec] using ih

theorem parseDec_pad3 (n : Nat) : parseDec 0 (pad3 n).data = n := by
  have h := parseDec_natReprChars n 0
  simp only [pad3]
  rw [parseDec_replicate_zero]
  simpa using h

theorem pad3_injective : Function.Injective pad3 := by
  intro m n h
  have hd : (pad3 m).data = (pad3 n).data := by rw [h]
  have := parseDec_pad3 m
  rw [hd, parseDec_pad3 n] at this
  omega

/-! ## `ensure_unique_path` (src/main.py lines 47-58)

The source receives a `pathlib.Path` and decomposes it into `parent`, `stem`
and `suffix`; we embed the decomposed form directly.  The filesystem is the
list of paths of existing files; `Path.exists()` is list membership. -/

/-- The decomposed desired destination path (`parent`, `stem`, `suffix` as in
`pathlib`). -/
structure DestPath where
  parent : String
  stem : String
  suffix : String
deriving DecidableEq

/-- `str(dest_path)`: `parent / (stem + suffix)`. -/
def DestPath.render (p : DestPath) : String :=
  p.parent ++ "/" ++ p.stem ++ p.suffix

/-- `str(parent / f"{stem}__{counter:03d}{suffix}")`: the collision candidate
for counter `k`. -/
def DestPath.candidate (p : DestPath) (k : Nat) : String :=
  p.parent ++ "/" ++ p.stem ++ "__" ++ pad3 k ++ p.suffix

theorem candidate_inj (p : DestPath) {j k : Nat}
    (h : p.candidate j = p.candidate k) : j = k := by
  have hd : (p.candidate j).data = (p.candidate k).data := by rw [h]
  simp only [DestPath.candidate, String.data_append, List.append_assoc,
    List.append_right_inj] at hd
  have hlen : (pad3 j).data.length = (pad3 k).data.length := by
    have := congrArg List.length hd
    simp only [List.length_append] at this
    omega
  have : (pad3 j).data = (pad3 k).data := List.append_inj_left hd hlen
  exact pad3_injective (String.ext this)

theorem render_ne_candidate (p : DestPath) (k : Nat) :
    p.render ≠ p.candidate k := by
  intro h
  have hd : (p.render).data = (p.candidate k).data := by rw [h]
  have := congrArg List.length hd
  simp only [DestPath.render, DestPath.candidate, String.data_append,
    List.length_append] at this
  have hpad : 3 ≤ (pad3 k).data.length := by
    simp only [pad3]
    simp [List.length_append, List.length_replicate]
    omega
  have hus : ("__" : String).data.length = 2 := rfl
  omega

/-- The `while True` collision loop of `ensure_unique_path`, made structural
with explicit fuel; `searchFree fs p fuel k` tries counters `k, k+1, …`. -/
def searchFree (fs : List String) (p : DestPath) : Nat → Nat → String
  | 0, k => p.candidate k
  | fuel + 1, k => if p.candidate k ∈ fs then searchFree fs p fuel (k + 1) else p.candidate k

/-- `ensure_unique_path(dest_path)`: return the path unchanged if no file
exists there, else the first free `{stem}__{counter:03d}{suffix}` candidate,
counter starting at 1.  The fuel `fs.length + 1` is sufficient because the
candidates are pairwise distinct (`candidate_inj`) and only `fs.length` paths
exist. -/
def ensure_unique_path (fs : List String) (p : DestPath) : String :=
  if p.render ∈ fs then searchFree fs p (fs.length + 1) 1 else p.render

theorem exists_free_in_window (fs : List String) (p : DestPath) (k : Nat) :
    ∃ i, i < fs.length + 1 ∧ p.candidate (k + i) ∉ fs := by
  by_contra hcon
  push_neg at hcon
  have hinj : Function.Injective (fun i : Nat => p.candidate (k + i)) := by
    intro a b hab
    have := candidate_inj p hab
    omega
  have hsub : Finset.image (fun i : Nat => p.candidate (k + i))
      (Finset.range (fs.length + 1)) ⊆ fs.toFinset := by
    intro x hx
    rw [Finset.mem_image] at hx
    obtain ⟨i, hi, rfl⟩ := hx
    rw [List.mem_toFinset]
    exact hcon i (Finset.mem_range.mp hi)
  have hcard := Finset.card_le_card hsub
  rw [Finset.card_image_of_injective _ hinj, Finset.card_range] at hcard
  have := List.toFinset_card_le fs
  omega

theorem searchFree_spec (fs : List String) (p : DestPath) :
    ∀ fuel k, (∃ i, i < fuel ∧ p.candidate (k + i) ∉ fs) →
      ∃ i, i < fuel ∧ searchFree fs p fuel k = p.candidate (k + i) ∧
        p.candidate (k + i) ∉ fs ∧ ∀ j, j < i → p.candidate (k + j) ∈ fs := by
  intro fuel
  induction fuel with
  | zero =>
    intro k h
    obtain ⟨i, hi, _⟩ := h
    omega
  | succ f ih =>
    intro k h
    by_cases hmem : p.candidate k ∈ fs
    · have h' : ∃ i, i < f ∧ p.candidate (k + 1 + i) ∉ fs := by
        obtain ⟨i, hi, hni⟩ := h
        match i with
        | 0 => exact absurd (by simpa using hmem) (by simpa using hni)
        | i + 1 =>
          refine ⟨i, by omega, ?_⟩
          rw [show k + 1 + i = k + (i + 1) from by omega]
          exact hni
      obtain ⟨i, hi, heq, hni, hmin⟩ := ih (k + 1) h'
      refine ⟨i + 1, by omega, ?_, ?_, ?_⟩
      · rw [searchFree, if_pos hmem, heq]
        congr 1
        omega
      · rw [show k + (i + 1) = k + 1 + i from by omega]
        exact hni
      · intro j hj
        match j with
        | 0 => simpa using hmem
        | j + 1 =>
          rw [show k + (j + 1) = k + 1 + j from by omega]
          exact hmin j (by omega)
    · refine ⟨0, by omega, ?_, by simpa using hmem,
        by intro j hj; exact absurd hj (by omega)⟩
      rw [searchFree, if_neg hmem]
      simp

theorem ensure_unique_path_of_free (fs : List String) (p : DestPath)
    (h : p.render ∉ fs) : ensure_unique_path fs p = p.render := by
  rw [ensure_unique_path, if_neg h]

theorem ensure_unique_path_of_taken (fs : List String) (p : DestPath)
    (h : p.render ∈ fs) :
    ∃ m, 1 ≤ m ∧ ensure_unique_path fs p = p.candidate m ∧
      p.candidate m ∉ fs ∧ ∀ j, 1 ≤ j → j < m → p.candidate j ∈ fs := by
  obtain ⟨i, hi, hni⟩ := exists_free_in_window fs p 1
  obtain ⟨i', hi', heq, hni', hmin⟩ :=
    searchFree_spec fs p (fs.length + 1) 1 ⟨i, hi, hni⟩
  refine ⟨1 + i', by omega, ?_, hni', ?_⟩
  · rw [ensure_unique_path, if_pos h, heq]
  · intro j hj1 hji
    have := hmin (j - 1) (by omega)
    rw [show 1 + (j - 1) = j from by omega] at this
    exact this

theorem ensure_unique_path_not_exists (fs : List String) (p : DestPath) :
    ensure_unique_path fs p ∉ fs := by
  by_cases h : p.render ∈ fs
  · obtain ⟨m, _, heq, hni, _⟩ := ensure_unique_path_of_taken fs p h
    rw [heq]
    exact hni
  · rw [ensure_unique_path_of_free fs p h]
    exact h

theorem ensure_unique_path_eq_of (fs : List String) (p : DestPath) (K : Nat)
    (hr : p.render ∈ fs) (hK1 : 1 ≤ K) (hKfree : p.candidate K ∉ fs)
    (hbelow : ∀ j, 1 ≤ j → j < K → p.candidate j ∈ fs) :
    ensure_unique_path fs p = p.candidate K := by
  obtain ⟨m, hm1, heq, hmfree, hmin⟩ := ensure_unique_path_of_taken fs p hr
  rcases lt_trichotomy m K with hlt | hEq | hgt
  · exact absurd (hbelow m hm1 hlt) hmfree
  · rw [heq, hEq]
  · exact absurd (hmin K hK1 hgt) hKfree

/-! ## `pathlib` path helpers

POSIX-style embedding of the `pathlib.PurePath` accessors the source uses:
`.name` (text after the last `/`), `.stem`/`.suffix` (CPython splits the name
at the last dot `i` when `0 < i < len(name) - 1`), `.parent`, `/`-join, and
`.is_absolute()` (leading `/`). -/

/-- `Path(s).name`: the characters after the last `'/'`. -/
def baseNameChars (cs : List Char) : List Char :=
  cs.foldl (fun acc c => if c = '/' then [] else acc ++ [c]) []

def baseName (s : String) : String := String.mk (baseNameChars s.data)

/-- Split a file name into `(stem, suffix)` following CPython's
`PurePath.suffix`: split at the last `'.'` at index `i` when
`0 < i < len - 1`, otherwise the suffix is empty. -/
def splitExtChars (cs : List Char) : List Char × List Char :=
  match cs.reverse.findIdx? (fun c => c == '.') with
  | none => (cs, [])
  | some r =>
    let i := cs.length - 1 - r
    if 0 < i ∧ i < cs.length - 1 then (cs.take i, cs.drop i) else (cs, [])

def pathStem (s : String) : String := String.mk (splitExtChars (baseNameChars s.data)).1

def pathSuffix (s : String) : String := String.mk (splitExtChars (baseNameChars s.data)).2

/-- `Path(s).is_absolute()` on POSIX: the path starts with `'/'`. -/
def isAbsolutePath (s : String) : Bool :=
  match s.data with
  | c :: _ => c == '/'
  | [] => false

/-- `Path(s).parent`: the text before the last `'/'` (`"."` when there is no
separator, `"/"` for a top-level entry). -/
def parentDir (s : String) : String :=
  match s.data.reverse.findIdx? (fun c => c == '/') with
  | none => "."
  | some r =>
    let i := s.data.length - 1 - r
    if i = 0 then "/" else String.mk (s.data.take i)

/-- `a / b` on `pathlib` paths (for a relative `b`). -/
def joinPath (a b : String) : String := a ++ "/" ++ b

/-- Python `str.lower()` (ASCII case, which is all the program compares). -/
def lowerStr (s : String) : String := String.mk (s.data.map Char.toLower)

/-! ## Filesystem model

An association list from file paths to file contents.  `shutil.move` /
`shutil.copy2` are content-preserving transfers; directories are not
modelled. -/

def fsLookup (fs : List (String × String)) (p : String) : Option String :=
  match fs with
  | [] => none
  | (q, c) :: rest => if q = p then some c else fsLookup rest p

/-- `Path(p).exists()`. -/
def fsExists (fs : List (String × String)) (p : String) : Bool :=
  (fsLookup fs p).isSome

def fsRemove (fs : List (String × String)) (p : String) : List (String × String) :=
  fs.filter (fun e => !(e.1 == p))

/-- `shutil.move(src, dst)` (no-op when `src` is missing; the program only
calls it with an existing source). -/
def fsMove (src dst : String) (fs : List (String × String)) : List (String × String) :=
  match fsLookup fs src with
  | none => fs
  | some c => (dst, c) :: fsRemove fs src

/-- `shutil.copy2(src, dst)`. -/
def fsCopy (src dst : String) (fs : List (String × String)) : List (String × String) :=
  match fsLookup fs src with
  | none => fs
  | some c => (dst, c) :: fs

/-- The set of existing file paths (what `ensure_unique_path` probes). -/
def fsPaths (fs : List (String × String)) : List String := fs.map Prod.fst

/-- Two filesystems hold the same files with the same contents. -/
def FsEquiv (f g : List (String × String)) : Prop := ∀ p, fsLookup f p = fsLookup g p

/-! ## The CSV log file

`Option (List (List String))`: `none` = the file does not exist; `some rows`
= the raw CSV rows (header row included). -/

abbrev LogFile := Option (List (List String))

/-- The header written by `VideoLabeler.ensure_log_header`. -/
def headerRow : List String :=
  ["timestamp", "key", "label", "original_path", "dest_path", "action"]

/-- `ensure_log_header` (src/main.py lines 193-208): create the file with the
single header row if it does not exist, otherwise leave it alone. -/
def ensure_log_header : LogFile → LogFile
  | some rows => some rows
  | none => some [headerRow]

/-- `log_action` (src/main.py lines 210-222): append one row (mode `"a"`
creates the file when missing). -/
def log_action (log : LogFile) (row : List String) : LogFile :=
  some (log.getD [] ++ [row])

/-- `remove_last_log_entry` (src/main.py lines 342-352): missing file — do
nothing; at most one row — do nothing; otherwise rewrite all rows but the
last. -/
def remove_last_log_entry : LogFile → LogFile
  | none => none
  | some rows => if rows.length ≤ 1 then some rows else some rows.dropLast

/-- `read_logged_paths` (src/main.py lines 61-70): missing file — empty set;
otherwise `csv.DictReader` keys each later row by the first (header) row, and
every non-empty `original_path` field is collected. -/
def read_logged_paths (log : LogFile) : List String :=
  match log with
  | none => []
  | some [] => []
  | some (hdr :: rows) =>
    rows.filterMap (fun r =>
      match hdr.findIdx? (fun h => h == "original_path") with
      | none => none
      | some i =>
        match r.get? i with
        | none => none
        | some v => if v = "" then none else some v)

/-! ## Label configuration and CLI resolution -/

/-- One record of the label configuration (after `load_labels` resolution the
`dest` field is an absolute directory path). -/
structure LabelRec where
  key : String
  name : String
  dest : String
deriving DecidableEq

/-- The `dest` resolution of `load_labels` (src/main.py lines 40-42): keep an
absolute path, resolve a relative one against the sorted-root. -/
def resolve_dest (sorted_root : String) (dest : String) : String :=
  if isAbsolutePath dest then dest else joinPath sorted_root dest

/-- `main` (src/main.py line 428): `args.sorted_root or source_dir.parent /
"sorted"`. -/
def resolve_sorted_root : Option String → String → String
  | some r, _ => r
  | none, source_dir => joinPath (parentDir source_dir) "sorted"

/-! ## Queue construction -/

/-- A direct child of the source directory as seen by `iterdir()`:
its full path and whether it is a regular file. -/
structure DirEntry where
  path : String
  isFile : Bool
deriving DecidableEq

def SUPPORTED_EXTENSIONS : List String :=
  [".mp4", ".mov", ".avi", ".mkv", ".mpg", ".mpeg", ".wmv"]

/-- `path.suffix.lower() in SUPPORTED_EXTENSIONS`. -/
def supportedExt (p : String) : Bool :=
  SUPPORTED_EXTENSIONS.contains (lowerStr (pathSuffix p))

/-- The loop-body filter of `build_queue`: regular file, supported extension,
not already in the log. -/
def keepEntry (logged : List String) (e : DirEntry) : Bool :=
  e.isFile && supportedExt e.path && !(decide (e.path ∈ logged))

/-- `build_queue` (src/main.py lines 183-191): sort the directory listing,
keep supported regular files not logged as `original_path`. -/
def build_queue (entries : List DirEntry) (log : LogFile) : List String :=
  let logged := read_logged_paths log
  ((entries.mergeSort (fun a b => decide (a.path ≤ b.path))).filter
    (keepEntry logged)).map DirEntry.path

/-! ## The `VideoLabeler` state machine

The persistent/observable state: the pending queue, the current item
(`current_path`), the undo stack, the log file and the filesystem.  Transient
playback state (player position, labels list widget, status text) is not
modelled.  `move_mode` is fixed at startup. -/

structure St where
  queue : List String
  current : Option String
  undo_stack : List (String × String)
  log : LogFile
  fs : List (String × String)
  mode : String
deriving DecidableEq

/-- `load_next` (src/main.py lines 224-237): pop the queue front into
`current_path`, or clear it when the queue is empty. -/
def load_next (st : St) : St :=
  match st.queue with
  | [] => { st with current := none }
  | x :: xs => { st with current := some x, queue := xs }

/-- `skip_current` (src/main.py lines 288-294): no current item — ignore;
otherwise log a `"skip"` row (`key=""`, `label="skip"`, `dest=original`) and
advance. -/
def skip_current (ts : String) (st : St) : St :=
  match st.current with
  | none => st
  | some p =>
    load_next { st with log := log_action st.log [ts, "", "skip", p, p, "skip"] }

/-- The collision-safe target `ensure_unique_path(dest_dir /
current_path.name)` of `label_current`. -/
def targetFor (st : St) (destDir : String) (cur : String) : String :=
  let se := splitExtChars (baseNameChars cur.data)
  ensure_unique_path (fsPaths st.fs) ⟨destDir, String.mk se.1, String.mk se.2⟩

/-- `label_current` (src/main.py lines 296-323): no current item — ignore;
compute the collision-safe target; on a `PermissionError` during the
move/copy (`permFail`) abort with the state unchanged; otherwise transfer the
file, push `(original, target)` on the undo stack, append a log row and
advance. -/
def label_current (lab : LabelRec) (ts : String) (permFail : Bool) (st : St) : St :=
  match st.current with
  | none => st
  | some cur =>
    let target := targetFor st lab.dest cur
    if permFail then st
    else
      let fs' := if st.mode = "copy" then fsCopy cur target st.fs
                 else fsMove cur target st.fs
      load_next { st with
        fs := fs',
        undo_stack := st.undo_stack ++ [(cur, target)],
        log := log_action st.log [ts, lab.key, lab.name, cur, target, st.mode] }

/-- `undo_last` (src/main.py lines 325-340): empty stack — ignore (status
message only); otherwise pop the most recent `(original, dest)`, move the
file back when it still exists, drop the last log row and push `original`
back on the queue front.  Note: the source reloads `original` into the player
but never assigns `current_path`, so `current` is unchanged. -/
def undo_last (st : St) : St :=
  match st.undo_stack.getLast? with
  | none => st
  | some od =>
    let fs' := if fsExists st.fs od.2 then fsMove od.2 od.1 st.fs else st.fs
    { st with
      undo_stack := st.undo_stack.dropLast,
      fs := fs',
      log := remove_last_log_entry st.log,
      queue := od.1 :: st.queue }

/-! ## Playback speed (src/main.py lines 90-91, 248-253) -/

/-- `self.speed_steps` (floats embedded as the rationals they denote). -/
def speed_steps : List ℚ := [1/2, 1, 3/2, 2, 4, 6, 8, 10]

/-- `cycle_speed`: `speed_index = (speed_index + 1) % len(speed_steps)`. -/
def cycle_speed (i : Nat) : Nat := (i + 1) % speed_steps.length

/-- The playback rate shown for index `i`. -/
def rateAt (i : Nat) : ℚ := speed_steps.getD i 0

/-! ## Small structural lemmas -/

theorem load_next_fs (st : St) : (load_next st).fs = st.fs := by
  cases h : st.queue <;> simp [load_next, h]

theorem load_next_log (st : St) : (load_next st).log = st.log := by
  cases h : st.queue <;> simp [load_next, h]

theorem load_next_undo (st : St) : (load_next st).undo_stack = st.undo_stack := by
  cases h : st.queue <;> simp [load_next, h]

theorem load_next_current (st : St) : (load_next st).current = st.queue.head? := by
  cases h : st.queue <;> simp [load_next, h]

theorem load_next_queue (st : St) : (load_next st).queue = st.queue.tail := by
  cases h : st.queue <;> simp [load_next, h]

theorem fsExists_iff_mem (fs : List (String × String)) (p : String) :
    fsExists fs p = true ↔ p ∈ fsPaths fs := by
  induction fs with
  | nil => simp [fsExists, fsLookup, fsPaths]
  | cons e rest ih =>
    by_cases h : e.1 = p
    · simp [fsExists, fsLookup, fsPaths, h]
    · simpa [fsExists, fsLookup, fsPaths, h, Ne.symm h] using ih

theorem fsLookup_fsRemove_self (fs : List (String × String)) (k : String) :
    fsLookup (fsRemove fs k) k = none := by
  induction fs with
  | nil => simp [fsRemove, fsLookup]
  | cons e rest ih =>
    by_cases h : e.1 = k
    · simpa [fsRemove, h] using ih
    · simpa [fsRemove, fsLookup, h] using ih

/-- The invariant of an existing log file: it begins with the header row. -/
def LogOk (log : LogFile) : Prop :=
  ∃ rows, log = some rows ∧ rows.head? = some headerRow

/-! ## Claim theorems -/

/-- C9: each invocation of the speed control advances the playback rate to
the next element of the fixed ordered list `(0.5, 1.0, 1.5, 2.0, 4.0, 6.0,
8.0, 10.0)`, wrapping to the first rate after the last; applying the step
eight times returns to the same index/rate, and the rate is always an element
of the list. -/
theorem claim_c9_cycle_speed (i : Nat) (h : i < speed_steps.length) :
    cycle_speed i < speed_steps.length ∧
    rateAt (cycle_speed i) ∈ speed_steps ∧
    (i + 1 < speed_steps.length → cycle_speed i = i + 1) ∧
    (i + 1 = speed_steps.length → cycle_speed i = 0) ∧
    cycle_speed (cycle_speed (cycle_speed (cycle_speed (cycle_speed
      (cycle_speed (cycle_speed (cycle_speed i))))))) = i := by
  have hlen : speed_steps.length = 8 := by simp [speed_steps]
  rw [hlen] at h
  interval_cases i <;>
    refine ⟨by norm_num [cycle_speed, speed_steps], ?_,
      by norm_num [cycle_speed, speed_steps],
      by norm_num [cycle_speed, speed_steps],
      by norm_num [cycle_speed, speed_steps]⟩ <;>
    norm_num [cycle_speed, speed_steps, rateAt]

theorem claim_c9_cycle_speed_witness :
    1 < speed_steps.length ∧
    cycle_speed (cycle_speed (cycle_speed (cycle_speed (cycle_speed
      (cycle_speed (cycle_speed (cycle_speed 1))))))) = 1 :=
  ⟨by norm_num [speed_steps],
   (claim_c9_cycle_speed 1 (by norm_num [speed_steps])).2.2.2.2⟩

/-- C8: undo with an empty undo stack, and classify/skip with no current
item, leave the state unchanged (status message only, no error). -/
theorem claim_c8_noop_missing_precondition (st : St) (lab : LabelRec)
    (ts : String) (pf : Bool) :
    (st.undo_stack = [] → undo_last st = st) ∧
    (st.current = none → skip_current ts st = st) ∧
    (st.current = none → label_current lab ts pf st = st) := by
  refine ⟨?_, ?_, ?_⟩
  · intro h
    simp [undo_last, h]
  · intro h
    simp [skip_current, h]
  · intro h
    simp [label_current, h]

/-- A state with nothing pending, used to witness C8. -/
def stEmpty : St :=
  { queue := [], current := none, undo_stack := [], log := some [headerRow],
    fs := [], mode := "move" }

/-- The (already resolved) label used in concrete scenarios. -/
def labKeep : LabelRec := { key := "1", name := "keep", dest := "/data/sorted/keep" }

theorem claim_c8_noop_missing_precondition_witness :
    stEmpty.undo_stack = [] ∧ stEmpty.current = none ∧
    undo_last stEmpty = stEmpty ∧ skip_current "t" stEmpty = stEmpty ∧
    label_current labKeep "t" false stEmpty = stEmpty :=
  ⟨rfl, rfl,
   (claim_c8_noop_missing_precondition stEmpty labKeep "t" false).1 rfl,
   (claim_c8_noop_missing_precondition stEmpty labKeep "t" false).2.1 rfl,
   (claim_c8_noop_missing_precondition stEmpty labKeep "t" false).2.2 rfl⟩

/-- C4: if the move/copy during classification fails with a permission error,
no log row is appended, the queue does not advance, the undo stack is
unchanged, the filesystem is unchanged and the same item remains current. -/
theorem claim_c4_permission_failure (st : St) (lab : LabelRec) (ts : String)
    (p : String) (hc : st.current = some p) :
    (label_current lab ts true st).log = st.log ∧
    (label_current lab ts true st).queue = st.queue ∧
    (label_current lab ts true st).undo_stack = st.undo_stack ∧
    (label_current lab ts true st).current = some p ∧
    (label_current lab ts true st).fs = st.fs := by
  have h : label_current lab ts true st = st := by simp [label_current, hc]
  rw [h, hc]
  exact ⟨rfl, rfl, rfl, rfl, rfl⟩

/-- A two-file state about to classify `src/a.mp4`, used in witnesses. -/
def stTwo : St :=
  { queue := ["src/b.mp4"], current := some "src/a.mp4", undo_stack := [],
    log := some [headerRow],
    fs := [("src/a.mp4", "AAA"), ("src/b.mp4", "BBB")], mode := "move" }

theorem claim_c4_permission_failure_witness :
    stTwo.current = some "src/a.mp4" ∧
    (label_current labKeep "t" true stTwo).log = stTwo.log ∧
    (label_current labKeep "t" true stTwo).current = some "src/a.mp4" :=
  ⟨rfl,
   (claim_c4_permission_failure stTwo labKeep "t" "src/a.mp4" rfl).1,
   (claim_c4_permission_failure stTwo labKeep "t" "src/a.mp4" rfl).2.2.2.1⟩

/-- C10: `remove_last_log_entry` never deletes the header row (missing file
or at most one row: unchanged), the header is written exactly once when the
file is first created, and every log operation preserves the invariant that
an existing log file begins with the header row. -/
theorem claim_c10_log_header_invariant :
    remove_last_log_entry none = none ∧
    (∀ rows : List (List String), rows.length ≤ 1 →
      remove_last_log_entry (some rows) = some rows) ∧
    ensure_log_header none = some [headerRow] ∧
    (∀ rows : List (List String), ensure_log_header (some rows) = some rows) ∧
    (∀ log, LogOk log → LogOk (ensure_log_header log)) ∧
    (∀ log row, LogOk log → LogOk (log_action log row)) ∧
    (∀ log, LogOk log → LogOk (remove_last_log_entry log)) := by
  refine ⟨rfl, ?_, rfl, fun rows => rfl, ?_, ?_, ?_⟩
  · intro rows h
    simp [remove_last_log_entry, h]
  · rintro log ⟨rows, rfl, hh⟩
    exact ⟨rows, rfl, hh⟩
  · rintro log row ⟨rows, rfl, hh⟩
    refine ⟨rows ++ [row], rfl, ?_⟩
    cases rows with
    | nil => simp at hh
    | cons a t => simpa using hh
  · rintro log ⟨rows, rfl, hh⟩
    by_cases hlen : rows.length ≤ 1
    · exact ⟨rows, by simp [remove_last_log_entry, hlen], hh⟩
    · refine ⟨rows.dropLast, by simp [remove_last_log_entry, hlen], ?_⟩
      match rows, hlen with
      | a :: b :: t, _ => simpa using hh

theorem claim_c10_log_header_invariant_witness :
    LogOk (some [headerRow]) ∧
    LogOk (log_action (some [headerRow]) ["t", "1", "keep", "a", "b", "move"]) ∧
    LogOk (remove_last_log_entry
      (log_action (some [headerRow]) ["t", "1", "keep", "a", "b", "move"])) :=
  ⟨⟨[headerRow], rfl, rfl⟩,
   claim_c10_log_header_invariant.2.2.2.2.2.1 (some [headerRow]) _
     ⟨[headerRow], rfl, rfl⟩,
   claim_c10_log_header_invariant.2.2.2.2.2.2 _
     (claim_c10_log_header_invariant.2.2.2.2.2.1 (some [headerRow]) _
       ⟨[headerRow], rfl, rfl⟩)⟩

/-- C7 counterexample: with no explicit sorted-root and source directory
`/data/videos`, the code resolves relative dests against `/data/sorted`
(a `"sorted"` directory inside the source's parent), not against the parent
`/data` itself as the claim states. -/
theorem claim_c7_counterexample :
    resolve_sorted_root none "/data/videos" = "/data/sorted" ∧
    parentDir "/data/videos" = "/data" ∧
    resolve_sorted_root none "/data/videos" ≠ parentDir "/data/videos" ∧
    resolve_dest (resolve_sorted_root none "/data/videos") "keep" = "/data/sorted/keep" ∧
    resolve_dest (parentDir "/data/videos") "keep" = "/data/keep" := by
  exact ⟨by decide, by decide, by decide, by decide, by decide⟩

/-- C7 amended: relative label dest paths are resolved against a sorted-root
that defaults to the directory `"sorted"` inside the parent of the source
directory (an explicitly supplied sorted-root is used as given); absolute
dest paths are kept as-is. -/
theorem claim_c7_sorted_root_default (src d r : String) :
    resolve_sorted_root (some r) src = r ∧
    resolve_sorted_root none src = joinPath (parentDir src) "sorted" ∧
    (isAbsolutePath d = true → resolve_dest (resolve_sorted_root none src) d = d) ∧
    (isAbsolutePath d = false →
      resolve_dest (resolve_sorted_root none src) d =
        joinPath (joinPath (parentDir src) "sorted") d) := by
  refine ⟨rfl, rfl, ?_, ?_⟩
  · intro h
    simp [resolve_dest, h, resolve_sorted_root]
  · intro h
    simp [resolve_dest, h, resolve_sorted_root]

theorem claim_c7_sorted_root_default_witness :
    isAbsolutePath "/abs/keep" = true ∧
    resolve_dest (resolve_sorted_root none "/data/videos") "/abs/keep" = "/abs/keep" ∧
    isAbsolutePath "keep" = false ∧
    resolve_dest (resolve_sorted_root none "/data/videos") "keep" =
      joinPath (joinPath (parentDir "/data/videos") "sorted") "keep" :=
  ⟨by decide,
   (claim_c7_sorted_root_default "/data/videos" "/abs/keep" "r").2.2.1 (by decide),
   by decide,
   (claim_c7_sorted_root_default "/data/videos" "keep" "r").2.2.2 (by decide)⟩

/-- C6: after a successful classification, in copy mode the original file
still exists at its source path, and in move mode it does not. -/
theorem claim_c6_mode_fidelity (st : St) (lab : LabelRec) (ts : String)
    (p : String) (hc : st.current = some p) (hex : fsExists st.fs p = true) :
    (st.mode = "copy" → fsExists (label_current lab ts false st).fs p = true) ∧
    (st.mode = "move" → fsExists (label_current lab ts false st).fs p = false) := by
  obtain ⟨c, hcc⟩ : ∃ c, fsLookup st.fs p = some c := by
    cases hl : fsLookup st.fs p with
    | none => rw [fsExists, hl] at hex; simp at hex
    | some c => exact ⟨c, rfl⟩
  have hmem : p ∈ fsPaths st.fs := (fsExists_iff_mem st.fs p).mp hex
  have htarget : targetFor st lab.dest p ∉ fsPaths st.fs :=
    ensure_unique_path_not_exists _ _
  have hne : targetFor st lab.dest p ≠ p := fun h => htarget (by rw [h]; exact hmem)
  constructor
  · intro hmode
    have hfs : (label_current lab ts false st).fs =
        fsCopy p (targetFor st lab.dest p) st.fs := by
      simp [label_current, hc, hmode, load_next_fs]
    rw [hfs, fsCopy, hcc]
    simp [fsExists, fsLookup, hne, hcc]
  · intro hmode
    have hmode' : ¬ (st.mode = "copy") := by
      rw [hmode]
      decide
    have hfs : (label_current lab ts false st).fs =
        fsMove p (targetFor st lab.dest p) st.fs := by
      simp [label_current, hc, hmode', load_next_fs]
    rw [hfs, fsMove, hcc]
    simp [fsExists, fsLookup, hne, fsLookup_fsRemove_self]

/-- `stTwo` with the mode set to `"copy"`. -/
def stTwoCopy : St := { stTwo with mode := "copy" }

theorem claim_c6_mode_fidelity_witness :
    stTwo.mode = "move" ∧ fsExists stTwo.fs "src/a.mp4" = true ∧
    fsExists (label_current labKeep "t" false stTwo).fs "src/a.mp4" = false ∧
    stTwoCopy.mode = "copy" ∧
    fsExists (label_current labKeep "t" false stTwoCopy).fs "src/a.mp4" = true :=
  ⟨rfl, rfl,
   (claim_c6_mode_fidelity stTwo labKeep "t" "src/a.mp4" rfl rfl).2 rfl,
   rfl,
   (claim_c6_mode_fidelity stTwoCopy labKeep "t" "src/a.mp4" rfl rfl).1 rfl⟩

/-! ## Reading back the log -/

theorem header_findIdx :
    headerRow.findIdx? (fun h => h == "original_path") = some 3 := by
  decide

theorem read_logged_paths_mem (rows : List (List String)) (r : List String)
    (v : String) (hr : r ∈ rows) (hv : r.get? 3 = some v) (hv' : v ≠ "") :
    v ∈ read_logged_paths (some (headerRow :: rows)) := by
  simp only [read_logged_paths]
  refine List.mem_filterMap.mpr ⟨r, hr, ?_⟩
  rw [List.get?_eq_getElem?] at hv
  simp [header_findIdx, hv, hv']

theorem build_queue_excludes (entries : List DirEntry) (log : LogFile)
    (p : String) (hp : p ∈ read_logged_paths log) :
    p ∉ build_queue entries log := by
  intro hmem
  simp only [build_queue, List.mem_map] at hmem
  obtain ⟨e, he, hpe⟩ := hmem
  rw [List.mem_filter] at he
  have hkeep := he.2
  rw [keepEntry] at hkeep
  simp only [Bool.and_eq_true, Bool.not_eq_true', decide_eq_false_iff_not] at hkeep
  exact hkeep.2 (by rw [hpe]; exact hp)

/-- C5: skip appends exactly one log row (`key=""`, `label="skip"`,
`action="skip"`, `dest_path = original_path = P`), changes no file, does not
push onto the undo stack, advances the queue, and the skipped path is
excluded from `build_queue` on later runs through the log-based exclusion. -/
theorem claim_c5_skip (st : St) (ts : String) (p : String)
    (hc : st.current = some p) :
    (skip_current ts st).log = log_action st.log [ts, "", "skip", p, p, "skip"] ∧
    (skip_current ts st).fs = st.fs ∧
    (skip_current ts st).undo_stack = st.undo_stack ∧
    (skip_current ts st).current = st.queue.head? ∧
    (skip_current ts st).queue = st.queue.tail ∧
    (∀ rest, st.log = some (headerRow :: rest) → p ≠ "" →
      ∀ entries, p ∉ build_queue entries (skip_current ts st).log) := by
  have hunfold : skip_current ts st =
      load_next { st with log := log_action st.log [ts, "", "skip", p, p, "skip"] } := by
    simp [skip_current, hc]
  refine ⟨by rw [hunfold, load_next_log], by rw [hunfold, load_next_fs],
    by rw [hunfold, load_next_undo], by rw [hunfold, load_next_current],
    by rw [hunfold, load_next_queue], ?_⟩
  intro rest hlog hne entries
  apply build_queue_excludes
  rw [hunfold, load_next_log]
  show p ∈ read_logged_paths (log_action st.log [ts, "", "skip", p, p, "skip"])
  rw [hlog]
  have hrw : log_action (some (headerRow :: rest)) [ts, "", "skip", p, p, "skip"] =
      some (headerRow :: (rest ++ [[ts, "", "skip", p, p, "skip"]])) := by
    simp [log_action]
  rw [hrw]
  exact read_logged_paths_mem (rest ++ [[ts, "", "skip", p, p, "skip"]])
    [ts, "", "skip", p, p, "skip"] p (by simp) rfl hne

theorem claim_c5_skip_witness :
    stTwo.current = some "src/a.mp4" ∧ stTwo.log = some (headerRow :: []) ∧
    ("src/a.mp4" : String) ≠ "" ∧
    (skip_current "t" stTwo).fs = stTwo.fs ∧
    (skip_current "t" stTwo).undo_stack = stTwo.undo_stack ∧
    "src/a.mp4" ∉ build_queue [⟨"src/a.mp4", true⟩] (skip_current "t" stTwo).log :=
  ⟨rfl, rfl, by decide,
   (claim_c5_skip stTwo "t" "src/a.mp4" rfl).2.1,
   (claim_c5_skip stTwo "t" "src/a.mp4" rfl).2.2.1,
   (claim_c5_skip stTwo "t" "src/a.mp4" rfl).2.2.2.2.2 [] rfl (by decide)
     [⟨"src/a.mp4", true⟩]⟩

/-- C2: the initial queue holds exactly the regular direct children with a
(case-insensitively) supported extension whose path is not logged as an
`original_path`; each appears exactly once, and the queue is sorted. -/
theorem claim_c2_build_queue (entries : List DirEntry) (log : LogFile)
    (hnd : (entries.map DirEntry.path).Nodup) :
    (∀ p, p ∈ build_queue entries log ↔
      ∃ e, e ∈ entries ∧ e.path = p ∧ e.isFile = true ∧
        supportedExt e.path = true ∧ p ∉ read_logged_paths log) ∧
    (∀ p, p ∈ build_queue entries log → (build_queue entries log).count p = 1) ∧
    List.Pairwise (fun a b : String => a ≤ b) (build_queue entries log) := by
  refine ⟨?_, ?_, ?_⟩
  · intro p
    simp only [build_queue, List.mem_map, List.mem_filter, List.mem_mergeSort]
    constructor
    · rintro ⟨e, ⟨he, hkeep⟩, rfl⟩
      rw [keepEntry] at hkeep
      simp only [Bool.and_eq_true, Bool.not_eq_true', decide_eq_false_iff_not] at hkeep
      exact ⟨e, he, rfl, hkeep.1.1, hkeep.1.2, hkeep.2⟩
    · rintro ⟨e, he, rfl, hf, hs, hl⟩
      refine ⟨e, ⟨he, ?_⟩, rfl⟩
      rw [keepEntry]
      simp only [Bool.and_eq_true, Bool.not_eq_true', decide_eq_false_iff_not]
      exact ⟨⟨hf, hs⟩, hl⟩
  · have hperm :
        ((entries.mergeSort (fun a b => decide (a.path ≤ b.path))).map
          DirEntry.path).Perm (entries.map DirEntry.path) :=
      (List.mergeSort_perm entries _).map DirEntry.path
    have hnd2 :
        ((entries.mergeSort (fun a b => decide (a.path ≤ b.path))).map
          DirEntry.path).Nodup := hperm.nodup_iff.mpr hnd
    have hsub : (build_queue entries log).Sublist
        ((entries.mergeSort (fun a b => decide (a.path ≤ b.path))).map
          DirEntry.path) := by
      simp only [build_queue]
      exact (List.filter_sublist _).map DirEntry.path
    have hndq : (build_queue entries log).Nodup := hnd2.sublist hsub
    intro p hp
    exact List.count_eq_one_of_mem hndq hp
  · have htrans : ∀ a b c : DirEntry, decide (a.path ≤ b.path) = true →
        decide (b.path ≤ c.path) = true → decide (a.path ≤ c.path) = true := by
      intro a b c hab hbc
      simp only [decide_eq_true_eq] at *
      exact le_trans hab hbc
    have htot : ∀ a b : DirEntry,
        (decide (a.path ≤ b.path) || decide (b.path ≤ a.path)) = true := by
      intro a b
      simp only [Bool.or_eq_true, decide_eq_true_eq]
      exact le_total a.path b.path
    have hsorted := List.sorted_mergeSort htrans htot entries
    have hsorted2 :
        ((entries.mergeSort (fun a b => decide (a.path ≤ b.path))).filter
          (keepEntry (read_logged_paths log))).Pairwise
            (fun a b : DirEntry => decide (a.path ≤ b.path) = true) :=
      List.Pairwise.sublist (List.filter_sublist _) hsorted
    simp only [build_queue]
    rw [List.pairwise_map]
    refine hsorted2.imp ?_
    intro a b h
    simpa using h

/-- A concrete unsorted directory listing used to witness C2. -/
def entriesW : List DirEntry :=
  [⟨"src/b.mp4", true⟩, ⟨"src/a.mp4", true⟩, ⟨"src/notes.txt", true⟩,
   ⟨"src/sub", false⟩]

theorem claim_c2_build_queue_witness :
    (entriesW.map DirEntry.path).Nodup ∧
    List.Pairwise (fun a b : String => a ≤ b) (build_queue entriesW none) :=
  ⟨by decide, (claim_c2_build_queue entriesW none (by decide)).2.2⟩

/-! ## C3: collision-safe naming -/

/-- The desired destination `d/a.mp4` used in the C3 scenarios. -/
def cPath : DestPath := ⟨"d", "a", ".mp4"⟩

/-- A filesystem holding `d/a.mp4` and `d/a__001.mp4` … `d/a__998.mp4`: the
counters 1–998 are taken, 999 and 1000 are free. -/
def cFs : List String :=
  cPath.render :: (List.range 998).map (fun i => cPath.candidate (i + 1))

theorem cFs_mem (j : Nat) (h1 : 1 ≤ j) (h2 : j ≤ 998) :
    cPath.candidate j ∈ cFs := by
  apply List.mem_cons_of_mem
  refine List.mem_map.mpr ⟨j - 1, List.mem_range.mpr (by omega), ?_⟩
  congr 1
  omega

theorem cFs_not_mem (j : Nat) (h : 999 ≤ j) : cPath.candidate j ∉ cFs := by
  intro hmem
  rcases List.mem_cons.mp hmem with heq | hmap
  · exact render_ne_candidate cPath j heq.symm
  · obtain ⟨i, hi, hEq⟩ := List.mem_map.mp hmap
    have := candidate_inj cPath hEq
    rw [List.mem_range] at hi
    omega

/-- C3 counterexample: with `d/a.mp4` and counters 1–998 taken, the code
returns `d/a__999.mp4`, yet the free candidate `d/a__1000.mp4` is
lexicographically smaller (`'1' < '9'`), so the returned path is *not* the
lexicographically first unused candidate. -/
theorem claim_c3_counterexample :
    ensure_unique_path cFs cPath = cPath.candidate 999 ∧
    cPath.candidate 1000 ∉ cFs ∧
    cPath.candidate 1000 < cPath.candidate 999 := by
  refine ⟨?_, cFs_not_mem 1000 (by omega), ?_⟩
  · apply ensure_unique_path_eq_of
    · exact List.mem_cons_self _ _
    · omega
    · exact cFs_not_mem 999 (by omega)
    · intro j hj1 hj2
      exact cFs_mem j hj1 (by omega)
  · have h1 : cPath.candidate 1000 = "d/a__1000.mp4" := rfl
    have h2 : cPath.candidate 999 = "d/a__999.mp4" := rfl
    rw [h1, h2, String.lt_iff_toList_lt]
    decide

/-- C3 amended: `ensure_unique_path` returns the path itself if no file
exists there, and otherwise the candidate `{stem}__{counter:03d}{ext}` with
the *numerically* smallest counter `m ≥ 1` whose path is unused (all smaller
counters being taken); the returned path never names an existing file.
(Within the three-digit range the counter enumeration order coincides with
lexicographic order, but not beyond it — see the counterexample.) -/
theorem claim_c3_collision_naming (fs : List String) (p : DestPath) :
    (p.render ∉ fs → ensure_unique_path fs p = p.render) ∧
    (p.render ∈ fs → ∃ m, 1 ≤ m ∧ ensure_unique_path fs p = p.candidate m ∧
      p.candidate m ∉ fs ∧ ∀ j, 1 ≤ j → j < m → p.candidate j ∈ fs) ∧
    ensure_unique_path fs p ∉ fs :=
  ⟨fun h => ensure_unique_path_of_free fs p h,
   fun h => ensure_unique_path_of_taken fs p h,
   ensure_unique_path_not_exists fs p⟩

/-- A small concrete filesystem: `d/a.mp4` and `d/a__001.mp4` exist. -/
def wFs : List String := ["d/a.mp4", "d/a__001.mp4"]

theorem claim_c3_collision_naming_witness :
    cPath.render ∈ wFs ∧
    (∃ m, 1 ≤ m ∧ ensure_unique_path wFs cPath = cPath.candidate m ∧
      cPath.candidate m ∉ wFs ∧ ∀ j, 1 ≤ j → j < m → cPath.candidate j ∈ wFs) ∧
    ensure_unique_path wFs cPath ∉ wFs :=
  ⟨by decide, (claim_c3_collision_naming wFs cPath).2.1 (by decide),
   (claim_c3_collision_naming wFs cPath).2.2⟩

/-! ## C1: the classify-then-undo round trip (spec §8.6 scenario)

Source `src` holds `a.mp4` and `b.mp4`; `a.mp4` is current, `b.mp4` queued
(the state after startup).  One classify (move mode) then one undo. -/

/-- The state after classifying `src/a.mp4` from `stTwo`. -/
def s1 : St := label_current labKeep "t1" false stTwo

/-- The state after undoing that classification. -/
def s2 : St := undo_last s1

/-- C1 (code-bug evidence): after classify-then-undo the filesystem, log and
undo stack are restored, and `src/a.mp4` is back at the queue front — but
`current_path` still points at `src/b.mp4` because `undo_last` never
reassigns it (it only reloads the player).  The combined pending state
(`current` + queue) is *not* the pre-classify state: pressing the label key
now moves `src/b.mp4` (the file the user is no longer watching) while
`src/a.mp4` stays put, contradicting the round-trip contract. -/
theorem claim_c1_undo_not_roundtrip :
    stTwo.current = some "src/a.mp4" ∧ stTwo.queue = ["src/b.mp4"] ∧
    s2.fs = stTwo.fs ∧ s2.log = stTwo.log ∧ s2.undo_stack = stTwo.undo_stack ∧
    s2.queue = ["src/a.mp4"] ∧ s2.current = some "src/b.mp4" ∧
    s2.current ≠ stTwo.current ∧ s2.queue ≠ stTwo.queue ∧
    fsExists (label_current labKeep "t2" false s2).fs "src/b.mp4" = false ∧
    fsExists (label_current labKeep "t2" false s2).fs "src/a.mp4" = true := by
  decide
